import Mathlib

/-!
Verification development for the Project CORAL coral-bleaching risk pipeline.

The definitions below are a shallow embedding of the Python sources:
* `src/app/app.py` — live fetch orchestrator (`get_live_data`), feature
  normalization (`preprocess_live_data`), historical fallback and risk
  assessment (`main`), what-if simulation (`main`, tab2), and the
  `st.cache_data(ttl=3600)` memoization wrapping `get_live_data`;
* `src/data_preparation_pipeline/noaa_data_fetcher.py` — the retrying
  single-endpoint fetcher `get_coral_reef_watch_data`;
* `src/data_preparation_pipeline/data_preprocessor.py` — `feature_engineer`
  and `apply_heuristic_labels`.

Numeric (float) columns are modelled as `ℚ`; timestamps as a calendar `Date`
(the sources only use the date part of `time` through the pandas accessors
`dt.year`, `dt.month`, `dt.dayofyear`, `dt.isocalendar().week`).
-/

namespace Coral

/-- The date part of a pandas `Timestamp`, proleptic Gregorian calendar. -/
structure Date where
  year : ℕ
  month : ℕ
  day : ℕ
deriving DecidableEq, Repr

/-- Injective monotone key for a valid date (month ≤ 12 < 16, day ≤ 31 < 32);
used as the comparison key when the sources call `sort_values('time')`. -/
def Date.key (t : Date) : ℕ :=
  (t.year * 16 + t.month) * 32 + t.day

/-- Gregorian leap-year rule, as implemented by pandas `Timestamp`. -/
def isLeapYear (y : ℕ) : Bool :=
  (y % 4 == 0 && y % 100 != 0) || y % 400 == 0

/-- Number of days of month `m` in year `y`. -/
def daysInMonth (y m : ℕ) : ℕ :=
  if m = 2 then (if isLeapYear y then 29 else 28)
  else if m = 4 ∨ m = 6 ∨ m = 9 ∨ m = 11 then 30
  else 31

/-- Days in year `y` that fall strictly before month `m`. -/
def daysBeforeMonth (y m : ℕ) : ℕ :=
  ((List.range m).drop 1).foldl (fun acc i => acc + daysInMonth y i) 0

/-- pandas `Series.dt.year`. -/
def dt_year (t : Date) : ℕ := t.year

/-- pandas `Series.dt.month`. -/
def dt_month (t : Date) : ℕ := t.month

/-- pandas `Series.dt.dayofyear` (1-based ordinal day within the year). -/
def dt_dayofyear (t : Date) : ℕ :=
  daysBeforeMonth t.year t.month + t.day

/-- Days falling strictly before year `y` in the proleptic Gregorian
calendar, so that 0001-01-01 has ordinal 1. -/
def daysBeforeYear (y : ℕ) : ℕ :=
  365 * (y - 1) + (y - 1) / 4 - (y - 1) / 100 + (y - 1) / 400

/-- Proleptic-Gregorian ordinal of a date (0001-01-01 ↦ 1). -/
def toOrdinal (t : Date) : ℕ :=
  daysBeforeYear t.year + dt_dayofyear t

/-- ISO weekday, 1 = Monday … 7 = Sunday (0001-01-01 was a Monday). -/
def dt_isoweekday (t : Date) : ℕ :=
  (toOrdinal t - 1) % 7 + 1

/-- Helper for the ISO long-year rule. -/
def iso_p (y : ℕ) : ℕ :=
  (y + y / 4 - y / 100 + y / 400) % 7

/-- Number of ISO weeks in ISO year `y` (52, or 53 for long years). -/
def iso_weeks_in_year (y : ℕ) : ℕ :=
  if iso_p y = 4 ∨ iso_p (y - 1) = 3 then 53 else 52

/-- pandas `Series.dt.isocalendar().week` (ISO-8601 week number). -/
def dt_isocalendar_week (t : Date) : ℕ :=
  let w := (dt_dayofyear t + 10 - dt_isoweekday t) / 7
  if w = 0 then iso_weeks_in_year (t.year - 1)
  else if w = 53 ∧ iso_weeks_in_year t.year = 52 then 1
  else w

/-- One parsed data row in the canonical column mapping that both fetchers
assign (`df.columns = ['time', 'latitude', 'longitude', …]`). -/
structure RawRow where
  time : Date
  latitude : ℚ
  longitude : ℚ
  sea_surface_temp_c : ℚ
  hotspot_c : ℚ
  degree_heating_week_c_weeks : ℚ
  sst_anomaly_c : ℚ
  bleaching_alert_area : ℚ
  bleaching_alert_area_7d_max : ℚ
deriving DecidableEq, Repr

/-- A row after the time-based feature derivation added the four calendar
columns (the Python code mutates the frame in place; we model the result). -/
structure ProcessedRow where
  data : RawRow
  year : ℕ
  month : ℕ
  day_of_year : ℕ
  week_of_year : ℕ
deriving DecidableEq, Repr

/-- Embedding of `src/app/app.py` lines 90–96, `preprocess_live_data`: derives
`year`, `month`, `day_of_year`, `week_of_year` from the `time` column. -/
def preprocess_live_data (df : RawRow) : ProcessedRow :=
  { data := df
    year := dt_year df.time
    month := dt_month df.time
    day_of_year := dt_dayofyear df.time
    week_of_year := dt_isocalendar_week df.time }

/-- One row of the historical store `coral_data_PROCESSED.csv`: the canonical
numeric columns plus `location_name` (plus the precomputed target, which the
assessment path never reads and which we therefore omit). -/
structure HistRow where
  location_name : String
  data : RawRow
deriving DecidableEq, Repr

/-- Historical row after `feature_engineer` added the calendar columns. -/
structure ProcessedHistRow where
  data : HistRow
  year : ℕ
  month : ℕ
  day_of_year : ℕ
  week_of_year : ℕ
deriving DecidableEq, Repr

/-- Embedding of `src/data_preparation_pipeline/data_preprocessor.py` lines 33–45,
`feature_engineer`: `pd.to_datetime` (identity here, `time` is already a
datetime) followed by the same four calendar-column assignments. -/
def feature_engineer (df : HistRow) : ProcessedHistRow :=
  { data := df
    year := dt_year df.data.time
    month := dt_month df.data.time
    day_of_year := dt_dayofyear df.data.time
    week_of_year := dt_isocalendar_week df.data.time }

/-- C8: the calendar features year, month, day_of_year and week_of_year are
the same deterministic function of `time` on the live path
(`preprocess_live_data`) and on the historical path (`feature_engineer`):
rows with equal `time` get identical values for all four derived fields. -/
theorem calendar_derivation_live_eq_historical
    (r : RawRow) (h : HistRow) (ht : r.time = h.data.time) :
    (preprocess_live_data r).year = (feature_engineer h).year ∧
    (preprocess_live_data r).month = (feature_engineer h).month ∧
    (preprocess_live_data r).day_of_year = (feature_engineer h).day_of_year ∧
    (preprocess_live_data r).week_of_year = (feature_engineer h).week_of_year := by
  simp [preprocess_live_data, feature_engineer, ht]

/-- Witness for C8 at a concrete date (2024-03-05). -/
theorem calendar_derivation_live_eq_historical_witness :
    let t : Date := ⟨2024, 3, 5⟩
    let r : RawRow := ⟨t, 11, 92, 29, 0, 0, 0, 0, 0⟩
    let h : HistRow := ⟨"Andaman_Islands", ⟨t, 11, 92, 28, 0, 1, 0, 0, 0⟩⟩
    (preprocess_live_data r).year = (feature_engineer h).year ∧
    (preprocess_live_data r).month = (feature_engineer h).month ∧
    (preprocess_live_data r).day_of_year = (feature_engineer h).day_of_year ∧
    (preprocess_live_data r).week_of_year = (feature_engineer h).week_of_year :=
  calendar_derivation_live_eq_historical _ _ rfl

/-- Insertion of an element into a list sorted by the key `k`; building block
of our model of pandas `DataFrame.sort_values` (ascending). -/
def insertByKey (k : α → ℕ) (a : α) : List α → List α
  | [] => [a]
  | b :: l => if k a ≤ k b then a :: b :: l else b :: insertByKey k a l

/-- Model of `DataFrame.sort_values` by the key `k`, ascending: any correct
comparison sort models the pandas call for the properties we state. -/
def sortByKey (k : α → ℕ) : List α → List α
  | [] => []
  | a :: l => insertByKey k a (sortByKey k l)

/-- Model of `DataFrame.iloc[-1:]`: the one-row slice holding the last row,
or the empty frame when the input frame is empty. -/
def iloc_last (l : List α) : List α :=
  match l.getLast? with
  | none => []
  | some a => [a]

theorem mem_insertByKey (k : α → ℕ) (a x : α) (l : List α) :
    x ∈ insertByKey k a l ↔ x = a ∨ x ∈ l := by
  induction l with
  | nil => simp [insertByKey]
  | cons b t ih =>
    by_cases hc : k a ≤ k b
    · simp [insertByKey, hc]
    · simp [insertByKey, hc, ih]
      tauto

theorem mem_sortByKey (k : α → ℕ) (x : α) (l : List α) :
    x ∈ sortByKey k l ↔ x ∈ l := by
  induction l with
  | nil => simp [sortByKey]
  | cons a t ih => simp [sortByKey, mem_insertByKey, ih]

theorem insertByKey_ne_nil (k : α → ℕ) (a : α) (l : List α) :
    insertByKey k a l ≠ [] := by
  cases l with
  | nil => simp [insertByKey]
  | cons b t =>
    by_cases hc : k a ≤ k b <;> simp [insertByKey, hc]

theorem sortByKey_eq_nil_iff (k : α → ℕ) (l : List α) :
    sortByKey k l = [] ↔ l = [] := by
  cases l with
  | nil => simp [sortByKey]
  | cons a t => simp [sortByKey, insertByKey_ne_nil]

theorem pairwise_insertByKey (k : α → ℕ) (a : α) (l : List α)
    (h : l.Pairwise (fun x y => k x ≤ k y)) :
    (insertByKey k a l).Pairwise (fun x y => k x ≤ k y) := by
  induction l with
  | nil => simp [insertByKey]
  | cons b t ih =>
    rcases List.pairwise_cons.1 h with ⟨hb, ht⟩
    by_cases hc : k a ≤ k b
    · rw [show insertByKey k a (b :: t) = a :: b :: t by simp [insertByKey, hc]]
      refine List.pairwise_cons.2 ⟨?_, h⟩
      intro y hy
      rcases List.mem_cons.1 hy with rfl | hyt
      · exact hc
      · exact le_trans hc (hb y hyt)
    · rw [show insertByKey k a (b :: t) = b :: insertByKey k a t by
        simp [insertByKey, hc]]
      refine List.pairwise_cons.2 ⟨?_, ih ht⟩
      intro y hy
      rcases (mem_insertByKey k a y t).1 hy with rfl | hyt
      · exact le_of_not_le hc
      · exact hb y hyt

theorem pairwise_sortByKey (k : α → ℕ) (l : List α) :
    (sortByKey k l).Pairwise (fun x y => k x ≤ k y) := by
  induction l with
  | nil => simp [sortByKey]
  | cons a t ih => exact pairwise_insertByKey k a _ ih

theorem mem_of_getLast?_eq (l : List α) (r : α) (hr : l.getLast? = some r) :
    r ∈ l := by
  rcases List.mem_getLast?_eq_getLast (Option.mem_def.2 hr) with ⟨h, hx⟩
  rw [hx]
  exact List.getLast_mem h

theorem getLast?_max_of_pairwise (k : α → ℕ) (l : List α) (r : α)
    (hp : l.Pairwise (fun x y => k x ≤ k y)) (hr : l.getLast? = some r) :
    ∀ x ∈ l, k x ≤ k r := by
  induction l with
  | nil => simp at hr
  | cons a t ih =>
    rcases List.pairwise_cons.1 hp with ⟨ha, ht⟩
    intro x hx
    cases t with
    | nil =>
      simp at hr
      rcases List.mem_singleton.1 hx with rfl
      simp [hr]
    | cons b u =>
      rw [List.getLast?_cons_cons] at hr
      rcases List.mem_cons.1 hx with rfl | hxt
      · have hb : r ∈ b :: u := mem_of_getLast?_eq _ _ hr
        exact ha r hb
      · exact ih ht hr x hxt

/-- The last row of the frame sorted by key is a maximal-key row of the input
(this is what `sort_values('time').iloc[-1:]` selects). -/
theorem iloc_last_sortByKey_spec (k : α → ℕ) (l : List α) (hne : l ≠ []) :
    ∃ r, iloc_last (sortByKey k l) = [r] ∧ r ∈ l ∧ ∀ x ∈ l, k x ≤ k r := by
  have hs : sortByKey k l ≠ [] := fun h => hne ((sortByKey_eq_nil_iff k l).1 h)
  rcases List.getLast?_isSome.2 hs |> Option.isSome_iff_exists.1 with ⟨r, hr⟩
  refine ⟨r, ?_, ?_, ?_⟩
  · simp [iloc_last, hr]
  · exact (mem_sortByKey k r l).1 (mem_of_getLast?_eq _ _ hr)
  · intro x hx
    exact getLast?_max_of_pairwise k _ r (pairwise_sortByKey k l) hr x
      ((mem_sortByKey k x l).2 hx)

/-- Outcome of one HTTP attempt against one endpoint.
`exc` covers everything `requests.exceptions.RequestException` covers
(timeouts, connection errors, and `raise_for_status` failures); `body`
carries the abstract response text — whether it contains the `"ERROR"`
marker, its length, and the rows `pd.read_csv` parses from it. -/
inductive Resp where
  | exc : Resp
  | body (has_error_marker : Bool) (text_len : ℕ) (rows : List RawRow) : Resp
deriving DecidableEq

/-- Does the attempt fail the validity checks of both fetchers
(exception, `"ERROR" in csv_data`, or `len(csv_data) < 100`)? -/
def isInvalidResp : Resp → Bool
  | .exc => true
  | .body err len _ => err || decide (len < 100)

/-- Loop body of `src/app/app.py` lines 67–87 (`get_live_data`): the servers
are tried in order, one `requests.get` each; an exception or an invalid body
moves on to the next server (`continue`); the first valid body is parsed,
sorted by `time`, and its last row returned. The second component logs each
network attempt as `(endpoint index, attempt index within that endpoint)`. -/
def get_live_data_loop : List (ℕ → Resp) → ℕ → Option (List RawRow) × List (ℕ × ℕ)
  | [], _ => (none, [])
  | f :: rest, i =>
    match f 0 with
    | .exc =>
      let out := get_live_data_loop rest (i + 1)
      (out.1, (i, 0) :: out.2)
    | .body err len rows =>
      if err || decide (len < 100) then
        let out := get_live_data_loop rest (i + 1)
        (out.1, (i, 0) :: out.2)
      else
        (some (iloc_last (sortByKey (fun r => r.time.key) rows)), [(i, 0)])

/-- Embedding of `src/app/app.py` lines 47–87, `get_live_data`, abstracted over the
network: each element of `endpoints` maps an attempt number to the response
that attempt would receive (the code only ever performs attempt `0`). -/
def get_live_data (endpoints : List (ℕ → Resp)) :
    Option (List RawRow) × List (ℕ × ℕ) :=
  get_live_data_loop endpoints 0

/-- Retry loop of `src/data_preparation_pipeline/noaa_data_fetcher.py`
lines 42–89 (`get_coral_reef_watch_data`): `for attempt in range(max_retries)`
against its single endpoint; an invalid body or exception retries when
`attempt < max_retries - 1` and otherwise returns `None`; a valid body is
parsed and returned whole. Returns (result, number of attempts performed);
`fuel` counts the loop iterations still allowed. -/
def crw_go (o : ℕ → Resp) (max_retries : ℕ) : ℕ → ℕ → Option (List RawRow) × ℕ
  | attempt, 0 => (none, attempt)
  | attempt, fuel + 1 =>
    match o attempt with
    | .exc =>
      if attempt < max_retries - 1 then crw_go o max_retries (attempt + 1) fuel
      else (none, attempt + 1)
    | .body err len rows =>
      if err || decide (len < 100) then
        if attempt < max_retries - 1 then crw_go o max_retries (attempt + 1) fuel
        else (none, attempt + 1)
      else (some rows, attempt + 1)

/-- Embedding of `get_coral_reef_watch_data(lat, lon, start, end, max_retries)` with the
location/window arguments abstracted into the response function `o`. -/
def get_coral_reef_watch_data (max_retries : ℕ) (o : ℕ → Resp) :
    Option (List RawRow) × ℕ :=
  crw_go o max_retries 0 max_retries

/-- A stored entry of the `st.cache_data` result cache: the memoized return
value of `get_live_data` — possibly `None` — and its insertion time. -/
structure CacheEntry where
  value : Option (List RawRow)
  stored_at : ℕ
deriving DecidableEq

/-- Semantics of the `@st.cache_data(ttl=3600)` decorator on `get_live_data`
(`src/app/app.py` line 47) for one fixed argument key `(lat, lon)`:
an entry younger than `ttl` is returned without calling the function;
otherwise the function runs and its return value — whatever it is,
including `None` — is stored. Returns
(result, cache state after the call, whether a fresh fetch was performed). -/
def cached_get_live_data (ttl now : ℕ) (cache : Option CacheEntry)
    (fetch : Unit → Option (List RawRow)) :
    Option (List RawRow) × Option CacheEntry × Bool :=
  match cache with
  | some e =>
    if now - e.stored_at < ttl then (e.value, some e, false)
    else
      let v := fetch ()
      (v, some ⟨v, now⟩, true)
  | none =>
    let v := fetch ()
    (v, some ⟨v, now⟩, true)

theorem iloc_last_length_le_one (l : List α) : (iloc_last l).length ≤ 1 := by
  cases h : l.getLast? <;> simp [iloc_last, h]

theorem get_live_data_loop_success (endpoints : List (ℕ → Resp)) :
    ∀ i l, (get_live_data_loop endpoints i).1 = some l →
      ∃ f len rows, f ∈ endpoints ∧ f 0 = Resp.body false len rows ∧
        ¬ len < 100 ∧ l = iloc_last (sortByKey (fun r => r.time.key) rows) := by
  induction endpoints with
  | nil => intro i l h; simp [get_live_data_loop] at h
  | cons f rest ih =>
    intro i l h
    cases hf : f 0 with
    | exc =>
      simp only [get_live_data_loop, hf] at h
      rcases ih (i + 1) l h with ⟨g, len, rows, hg, h1, h2, h3⟩
      exact ⟨g, len, rows, List.mem_cons_of_mem f hg, h1, h2, h3⟩
    | body err len rows =>
      cases hv : err || decide (len < 100)
      · simp only [get_live_data_loop, hf, hv, Bool.false_eq_true, if_false,
          Option.some.injEq] at h
        have herr : err = false := (Bool.or_eq_false_iff.1 hv).1
        have hlen : ¬ len < 100 := by
          have := (Bool.or_eq_false_iff.1 hv).2
          simpa using this
        subst herr
        exact ⟨f, len, rows, List.mem_cons_self f rest, hf, hlen, h.symm⟩
      · simp only [get_live_data_loop, hf, hv, if_true] at h
        rcases ih (i + 1) l h with ⟨g, len', rows', hg, h1, h2, h3⟩
        exact ⟨g, len', rows', List.mem_cons_of_mem f hg, h1, h2, h3⟩

theorem get_live_data_loop_attempt_zero (endpoints : List (ℕ → Resp)) :
    ∀ i p, p ∈ (get_live_data_loop endpoints i).2 → p.2 = 0 := by
  induction endpoints with
  | nil => intro i p hp; simp [get_live_data_loop] at hp
  | cons f rest ih =>
    intro i p hp
    cases hf : f 0 with
    | exc =>
      simp only [get_live_data_loop, hf, List.mem_cons] at hp
      rcases hp with rfl | hp
      · rfl
      · exact ih (i + 1) p hp
    | body err len rows =>
      cases hv : err || decide (len < 100)
      · simp only [get_live_data_loop, hf, hv, Bool.false_eq_true, if_false,
          List.mem_singleton] at hp
        subst hp; rfl
      · simp only [get_live_data_loop, hf, hv, if_true, List.mem_cons] at hp
        rcases hp with rfl | hp
        · rfl
        · exact ih (i + 1) p hp

theorem get_live_data_loop_log_length (endpoints : List (ℕ → Resp)) :
    ∀ i, (get_live_data_loop endpoints i).2.length ≤ endpoints.length := by
  induction endpoints with
  | nil => intro i; simp [get_live_data_loop]
  | cons f rest ih =>
    intro i
    cases hf : f 0 with
    | exc =>
      simp only [get_live_data_loop, hf, List.length_cons]
      exact Nat.succ_le_succ (ih (i + 1))
    | body err len rows =>
      cases hv : err || decide (len < 100)
      · simp [get_live_data_loop, hf, hv]
      · simp only [get_live_data_loop, hf, hv, if_true, List.length_cons]
        exact Nat.succ_le_succ (ih (i + 1))

theorem get_live_data_loop_all_invalid (endpoints : List (ℕ → Resp)) :
    ∀ i, (∀ f ∈ endpoints, isInvalidResp (f 0) = true) →
      (get_live_data_loop endpoints i).1 = none := by
  induction endpoints with
  | nil => intro i _; simp [get_live_data_loop]
  | cons f rest ih =>
    intro i hall
    have hf0 : isInvalidResp (f 0) = true := hall f (List.mem_cons_self f rest)
    have hrest : ∀ g ∈ rest, isInvalidResp (g 0) = true :=
      fun g hg => hall g (List.mem_cons_of_mem f hg)
    cases hf : f 0 with
    | exc => simp only [get_live_data_loop, hf]; exact ih (i + 1) hrest
    | body err len rows =>
      have hv : (err || decide (len < 100)) = true :=
        (congrArg isInvalidResp hf).symm.trans hf0
      simp only [get_live_data_loop, hf, hv, if_true]
      exact ih (i + 1) hrest

theorem crw_go_count_le (o : ℕ → Resp) (max_retries : ℕ) :
    ∀ fuel attempt, (crw_go o max_retries attempt fuel).2 ≤ attempt + fuel := by
  intro fuel
  induction fuel with
  | zero => intro attempt; simp [crw_go]
  | succ n ih =>
    intro attempt
    cases ho : o attempt with
    | exc =>
      by_cases hlt : attempt < max_retries - 1
      · simp only [crw_go, ho, if_pos hlt]
        calc (crw_go o max_retries (attempt + 1) n).2 ≤ (attempt + 1) + n :=
              ih (attempt + 1)
          _ = attempt + (n + 1) := by omega
      · simp only [crw_go, ho, if_neg hlt]; omega
    | body err len rows =>
      cases hv : err || decide (len < 100)
      · simp only [crw_go, ho, hv, Bool.false_eq_true, if_false]; omega
      · by_cases hlt : attempt < max_retries - 1
        · simp only [crw_go, ho, hv, if_true, if_pos hlt]
          calc (crw_go o max_retries (attempt + 1) n).2 ≤ (attempt + 1) + n :=
                ih (attempt + 1)
            _ = attempt + (n + 1) := by omega
        · simp only [crw_go, ho, hv, if_true, if_neg hlt]; omega

theorem crw_go_all_invalid (o : ℕ → Resp) (max_retries : ℕ)
    (hall : ∀ a < max_retries, isInvalidResp (o a) = true) :
    ∀ fuel attempt, attempt + fuel ≤ max_retries →
      (crw_go o max_retries attempt fuel).1 = none := by
  intro fuel
  induction fuel with
  | zero => intro attempt _; simp [crw_go]
  | succ n ih =>
    intro attempt hb
    have ha : attempt < max_retries := by omega
    have hinv := hall attempt ha
    cases ho : o attempt with
    | exc =>
      by_cases hlt : attempt < max_retries - 1
      · simp only [crw_go, ho, if_pos hlt]; exact ih (attempt + 1) (by omega)
      · simp [crw_go, ho, if_neg hlt]
    | body err len rows =>
      have hv : (err || decide (len < 100)) = true :=
        (congrArg isInvalidResp ho).symm.trans hinv
      by_cases hlt : attempt < max_retries - 1
      · simp only [crw_go, ho, hv, if_true, if_pos hlt]
        exact ih (attempt + 1) (by omega)
      · simp [crw_go, ho, hv, if_neg hlt]

/-- C9: whenever the live fetch succeeds, the returned frame has at most one
row, parsed from the first valid endpoint body, and equals
`sort_values('time').iloc[-1:]` of that body; when the parsed frame is
non-empty, the result is exactly one row whose `time` is maximal among all
parsed rows. -/
theorem live_fetch_success_single_latest_row
    (endpoints : List (ℕ → Resp)) (l : List RawRow)
    (h : (get_live_data endpoints).1 = some l) :
    l.length ≤ 1 ∧
    ∃ f len rows, f ∈ endpoints ∧ f 0 = Resp.body false len rows ∧
      ¬ len < 100 ∧ l = iloc_last (sortByKey (fun r => r.time.key) rows) ∧
      (rows ≠ [] → l.length = 1 ∧
        ∀ r ∈ l, r ∈ rows ∧ ∀ x ∈ rows, x.time.key ≤ r.time.key) := by
  obtain ⟨f, len, rows, hmem, hbody, hlen, hl⟩ :=
    get_live_data_loop_success endpoints 0 l h
  refine ⟨by rw [hl]; exact iloc_last_length_le_one _,
    f, len, rows, hmem, hbody, hlen, hl, ?_⟩
  intro hne
  rcases iloc_last_sortByKey_spec (fun r => r.time.key) rows hne with
    ⟨r, hr, hrmem, hmax⟩
  rw [hl, hr]
  refine ⟨rfl, ?_⟩
  intro x hx
  rcases List.mem_singleton.1 hx with rfl
  exact ⟨hrmem, hmax⟩

/-- Witness for C9: one endpoint answering a valid two-row body; the fetch
returns only the later row. -/
theorem live_fetch_success_single_latest_row_witness :
    let row1 : RawRow := ⟨⟨2024, 1, 1⟩, 11, 92, 29, 0, 0, 0, 0, 0⟩
    let row2 : RawRow := ⟨⟨2024, 1, 2⟩, 11, 92, 30, 0, 1, 0, 0, 0⟩
    let endpoints : List (ℕ → Resp) := [fun _ => Resp.body false 500 [row1, row2]]
    ∃ l, (get_live_data endpoints).1 = some l ∧
      (l.length ≤ 1 ∧
        ∃ f len rows, f ∈ endpoints ∧ f 0 = Resp.body false len rows ∧
          ¬ len < 100 ∧ l = iloc_last (sortByKey (fun r => r.time.key) rows) ∧
          (rows ≠ [] → l.length = 1 ∧
            ∀ r ∈ l, r ∈ rows ∧ ∀ x ∈ rows, x.time.key ≤ r.time.key)) :=
  ⟨_, rfl, live_fetch_success_single_latest_row _ _ rfl⟩

/-- C7: `get_live_data` performs at most one attempt per configured endpoint
and returns `None` — without raising — when every attempt fails;
`get_coral_reef_watch_data` performs at most `max_retries` attempts on its
single endpoint and returns `None` when all of them fail. Both loops are
total functions, so they terminate within those bounds. -/
theorem fetch_attempts_bounded_and_unavailable :
    (∀ endpoints : List (ℕ → Resp),
      (get_live_data endpoints).2.length ≤ endpoints.length * 1 ∧
      ((∀ f ∈ endpoints, isInvalidResp (f 0) = true) →
        (get_live_data endpoints).1 = none)) ∧
    (∀ (max_retries : ℕ) (o : ℕ → Resp),
      (get_coral_reef_watch_data max_retries o).2 ≤ 1 * max_retries ∧
      ((∀ a < max_retries, isInvalidResp (o a) = true) →
        (get_coral_reef_watch_data max_retries o).1 = none)) := by
  constructor
  · intro endpoints
    refine ⟨?_, fun hall => get_live_data_loop_all_invalid endpoints 0 hall⟩
    simpa using get_live_data_loop_log_length endpoints 0
  · intro max_retries o
    constructor
    · have := crw_go_count_le o max_retries max_retries 0
      simpa [get_coral_reef_watch_data] using this
    · intro hall
      exact crw_go_all_invalid o max_retries hall max_retries 0 (by omega)

/-- Witness for C7: one always-failing endpoint for the app orchestrator and
three failing attempts for the pipeline fetcher. -/
theorem fetch_attempts_bounded_and_unavailable_witness :
    (get_live_data [fun _ => Resp.exc]).2.length ≤ 1 * 1 ∧
    (get_live_data [fun _ => Resp.exc]).1 = none ∧
    (get_coral_reef_watch_data 3 (fun _ => Resp.exc)).2 ≤ 1 * 3 ∧
    (get_coral_reef_watch_data 3 (fun _ => Resp.exc)).1 = none := by
  have h := fetch_attempts_bounded_and_unavailable
  refine ⟨(h.1 _).1, (h.1 _).2 ?_, (h.2 3 _).1, (h.2 3 _).2 ?_⟩
  · intro f hf
    rcases List.mem_singleton.1 hf with rfl
    rfl
  · intro a _
    rfl

/-- C6 counterexample: endpoint A answers an "ERROR"-marker body on its first
two attempts and would succeed on the third, endpoint B succeeds at once.
The orchestrator gives A a single attempt, moves on, tries endpoint B
(attempt `(1, 0)` is in the log) and returns B's row — not A's. -/
theorem error_body_not_retried_within_endpoint_counterexample :
    let rowA : RawRow := ⟨⟨2024, 1, 1⟩, 11, 92, 29, 0, 0, 0, 0, 0⟩
    let rowB : RawRow := ⟨⟨2024, 1, 2⟩, 11, 92, 30, 0, 1, 0, 0, 0⟩
    let endpointA : ℕ → Resp := fun j =>
      if j < 2 then Resp.body true 500 [] else Resp.body false 500 [rowA]
    let endpointB : ℕ → Resp := fun _ => Resp.body false 500 [rowB]
    get_live_data [endpointA, endpointB] = (some [rowB], [(0, 0), (1, 0)]) ∧
    endpointA 2 = Resp.body false 500 [rowA] ∧ rowB ≠ rowA := by
  exact ⟨by decide, by decide, by decide⟩

/-- C6 amended: in the app orchestrator `get_live_data` every endpoint gets
exactly one attempt per call (every logged attempt index is 0), so an
invalid body falls through to the next endpoint instead of being retried;
local retry up to the bound exists only in the single-endpoint pipeline
fetcher `get_coral_reef_watch_data`, where an invalid body on the first two
attempts followed by a valid body on the third yields that parsed result. -/
theorem retry_is_per_endpoint_only_in_pipeline_fetcher
    (endpoints : List (ℕ → Resp)) (o : ℕ → Resp) (len : ℕ) (rows : List RawRow)
    (h0 : isInvalidResp (o 0) = true) (h1 : isInvalidResp (o 1) = true)
    (h2 : o 2 = Resp.body false len rows) (hlen : ¬ len < 100) :
    (∀ p ∈ (get_live_data endpoints).2, p.2 = 0) ∧
    get_coral_reef_watch_data 3 o = (some rows, 3) := by
  constructor
  · intro p hp
    exact get_live_data_loop_attempt_zero endpoints 0 p hp
  · have step2 : crw_go o 3 2 1 = (some rows, 3) := by
      simp [crw_go, h2, hlen]
    have step1 : crw_go o 3 1 2 = (some rows, 3) := by
      cases ho : o 1 with
      | exc => simpa [crw_go, ho] using step2
      | body err l2 r2 =>
        have hv : (err || decide (l2 < 100)) = true :=
          (congrArg isInvalidResp ho).symm.trans h1
        simpa [crw_go, ho, hv] using step2
    have step0 : crw_go o 3 0 3 = (some rows, 3) := by
      cases ho : o 0 with
      | exc => simpa [crw_go, ho] using step1
      | body err l2 r2 =>
        have hv : (err || decide (l2 < 100)) = true :=
          (congrArg isInvalidResp ho).symm.trans h0
        simpa [crw_go, ho, hv] using step1
    simpa [get_coral_reef_watch_data] using step0

/-- Witness for the amended C6: a concrete response sequence that is invalid
twice and valid on the third attempt. -/
theorem retry_is_per_endpoint_only_in_pipeline_fetcher_witness :
    let row : RawRow := ⟨⟨2024, 1, 1⟩, 11, 92, 29, 0, 0, 0, 0, 0⟩
    let o : ℕ → Resp := fun j =>
      if j < 2 then Resp.exc else Resp.body false 500 [row]
    (∀ p ∈ (get_live_data []).2, p.2 = 0) ∧
    get_coral_reef_watch_data 3 o = (some [row], 3) :=
  retry_is_per_endpoint_only_in_pipeline_fetcher [] _ 500 _
    rfl rfl rfl (by decide)

/-- C3 counterexample: under the `st.cache_data(ttl=3600)` semantics, a
fetch that fails (returns `None`) at time 0 is stored in the cache; a second
request at time 1000 — within the TTL — returns the cached `None` and
performs no fresh fetch, even though the fetcher would now succeed. -/
theorem failure_result_cached_counterexample :
    let row : RawRow := ⟨⟨2024, 1, 2⟩, 11, 92, 30, 0, 1, 0, 0, 0⟩
    let first := cached_get_live_data 3600 0 none (fun _ => none)
    let second := cached_get_live_data 3600 1000 first.2.1 (fun _ => some [row])
    first.1 = none ∧ second.1 = none ∧ second.2.2 = false :=
  ⟨rfl, rfl, rfl⟩

/-- C3 amended: the result cache stores every completed fetch result,
including the `None`/Unavailable outcome; within the TTL the cached value —
also a cached failure — is returned with no fresh fetch, and a fresh fetch
happens exactly when the entry is absent or expired. -/
theorem every_fetch_result_cached_for_ttl
    (ttl now : ℕ) (fetch : Unit → Option (List RawRow)) :
    cached_get_live_data ttl now none fetch =
      (fetch (), some ⟨fetch (), now⟩, true) ∧
    (∀ e : CacheEntry, now - e.stored_at < ttl →
      cached_get_live_data ttl now (some e) fetch = (e.value, some e, false)) ∧
    (∀ e : CacheEntry, ¬ now - e.stored_at < ttl →
      cached_get_live_data ttl now (some e) fetch =
        (fetch (), some ⟨fetch (), now⟩, true)) := by
  refine ⟨rfl, ?_, ?_⟩ <;> intro e he <;> simp [cached_get_live_data, he]

/-- Witness for the amended C3: a cached failure from time 0 is returned
unchanged at time 1000 with `ttl = 3600`. -/
theorem every_fetch_result_cached_for_ttl_witness :
    cached_get_live_data 3600 1000 none (fun _ => none) =
      (none, some ⟨none, 1000⟩, true) ∧
    cached_get_live_data 3600 1000 (some ⟨none, 0⟩) (fun _ => none) =
      (none, some ⟨none, 0⟩, false) :=
  ⟨(every_fetch_result_cached_for_ttl 3600 1000 (fun _ => none)).1,
    (every_fetch_result_cached_for_ttl 3600 1000 (fun _ => none)).2.1
      ⟨none, 0⟩ (by decide)⟩

/-- The ten-column feature frame `live_df_processed[features_for_model]`
handed to the model, in the order fixed at `src/app/app.py` lines 168–172. -/
def features_for_model (p : ProcessedRow) : List ℚ :=
  [p.data.sea_surface_temp_c, p.data.hotspot_c,
    p.data.degree_heating_week_c_weeks, p.data.sst_anomaly_c,
    p.data.bleaching_alert_area, p.data.bleaching_alert_area_7d_max,
    (p.year : ℚ), (p.month : ℚ), (p.day_of_year : ℚ), (p.week_of_year : ℚ)]

/-- Embedding of `model.predict(live_df_processed[features_for_model])[0]`
(`src/app/app.py` line 173): the opaque model applied to the feature row. -/
def predict_row (model : List ℚ → ℚ) (row : RawRow) : ℚ :=
  model (features_for_model (preprocess_live_data row))

/-- Embedding of `src/app/app.py` lines 205–207 (tab2): `sim_df = live_df_raw.copy()`,
then only the two columns `sea_surface_temp_c` and
`degree_heating_week_c_weeks` are assigned the slider values. -/
def simulate_overrides (row : RawRow) (sim_sst sim_dhw : ℚ) : RawRow :=
  { row with
    sea_surface_temp_c := sim_sst
    degree_heating_week_c_weeks := sim_dhw }

/-- Embedding of `src/app/app.py` lines 205–216 (tab2): the simulated frame is
re-processed by `preprocess_live_data` and handed to the same model over the
same feature list. -/
def sim_prediction (model : List ℚ → ℚ) (row : RawRow)
    (sim_sst sim_dhw : ℚ) : ℚ :=
  model (features_for_model (preprocess_live_data
    (simulate_overrides row sim_sst sim_dhw)))

/-- Python exceptions that our embedding of `main` can surface. -/
inductive PyErr where
  | indexError
deriving DecidableEq, Repr

/-- Outcome of the live-risk-assessment tab: a prediction that is either live
(`stale = none`) or explicitly tagged stale with the historical row's
timestamp (`stale = some t`, the `st.warning` fallback banner), or the
explicit no-data state (`st.error` at `src/app/app.py` line 184). -/
inductive Outcome where
  | assessed (stale : Option Date) (prediction : ℚ)
  | unavailable
deriving DecidableEq, Repr

/-- Embedding of `src/app/app.py` lines 153–162: when `live_df_raw` is `None` or empty,
filter the historical store to the location, sort by `time`, keep
`iloc[-1:]`, and read `live_df_raw['time'].iloc[0]` for the stale banner —
an `IndexError` when that frame is empty. Returns the data frame that
replaces `live_df_raw` together with the surfaced stale timestamp. -/
def fallback_resolve (hist : List HistRow) (loc : String) :
    Except PyErr (List RawRow × Option Date) :=
  let location_historical_df := hist.filter (fun h => h.location_name == loc)
  let fb := iloc_last (sortByKey (fun h => h.data.time.key)
    location_historical_df)
  let live_df_raw := fb.map (fun h => h.data)
  match live_df_raw.head? with
  | none => .error .indexError
  | some r => .ok (live_df_raw, some r.time)

/-- Embedding of `src/app/app.py` lines 152–184 (`main`, data-resolution plus tab1): the
live result is used when non-`None` and non-empty; otherwise the historical
fallback runs; tab1 then predicts from the first row of the resulting frame,
or shows the explicit unavailable state if the frame is empty. -/
def run_assessment (model : List ℚ → ℚ) (hist : List HistRow) (loc : String)
    (live : Option (List RawRow)) : Except PyErr Outcome :=
  let step : Except PyErr (List RawRow × Option Date) :=
    match live with
    | some l => if l.isEmpty then fallback_resolve hist loc else .ok (l, none)
    | none => fallback_resolve hist loc
  match step with
  | .error e => .error e
  | .ok (rows, stale) =>
    match rows with
    | [] => .ok .unavailable
    | r :: _ => .ok (.assessed stale (predict_row model r))

/-- C1: when the live fetch failed (`None` or an empty frame) and the
historical store has at least one row for the location, the assessment is
computed from a maximal-`time` historical row of that location and is
presented stale with that row's original timestamp — never as live. -/
theorem failed_fetch_uses_latest_historical_as_stale
    (model : List ℚ → ℚ) (hist : List HistRow) (loc : String)
    (live : Option (List RawRow))
    (hlive : live = none ∨ live = some [])
    (hhist : ∃ h ∈ hist, h.location_name = loc) :
    ∃ r : HistRow, r ∈ hist ∧ r.location_name = loc ∧
      run_assessment model hist loc live =
        .ok (.assessed (some r.data.time) (predict_row model r.data)) ∧
      ∀ h ∈ hist, h.location_name = loc →
        h.data.time.key ≤ r.data.time.key := by
  have hfilter : hist.filter (fun h => h.location_name == loc) ≠ [] := by
    rcases hhist with ⟨h, hmem, hloc⟩
    intro hnil
    have : h ∈ hist.filter (fun h => h.location_name == loc) :=
      List.mem_filter.2 ⟨hmem, by simp [hloc]⟩
    simp [hnil] at this
  obtain ⟨r, hr, hrmem, hrmax⟩ :=
    iloc_last_sortByKey_spec (fun h => h.data.time.key)
      (hist.filter (fun h => h.location_name == loc)) hfilter
  have hrloc : r.location_name = loc := by
    have := (List.mem_filter.1 hrmem).2
    simpa using this
  have hfb : fallback_resolve hist loc =
      .ok ([r.data], some r.data.time) := by
    simp only [fallback_resolve, hr, List.map_cons, List.map_nil,
      List.head?_cons]
  refine ⟨r, (List.mem_filter.1 hrmem).1, hrloc, ?_, ?_⟩
  · rcases hlive with rfl | rfl <;>
      simp [run_assessment, hfb]
  · intro h hmem hloc
    exact hrmax h (List.mem_filter.2 ⟨hmem, by simp [hloc]⟩)

/-- Witness for C1: live fetch `None`, a two-row historical store for the
location; the later row (2020-05-02) is selected and surfaced as stale. -/
theorem failed_fetch_uses_latest_historical_as_stale_witness :
    let older : HistRow := ⟨"Gulf_of_Mannar", ⟨⟨2020, 5, 1⟩, 8, 78, 29, 0, 2, 0, 0, 0⟩⟩
    let newer : HistRow := ⟨"Gulf_of_Mannar", ⟨⟨2020, 5, 2⟩, 8, 78, 30, 0, 3, 0, 0, 0⟩⟩
    ∃ r : HistRow, r ∈ [older, newer] ∧ r.location_name = "Gulf_of_Mannar" ∧
      run_assessment (fun _ => 37) [older, newer] "Gulf_of_Mannar" none =
        .ok (.assessed (some r.data.time) (predict_row (fun _ => 37) r.data)) ∧
      ∀ h ∈ [older, newer], h.location_name = "Gulf_of_Mannar" →
        h.data.time.key ≤ r.data.time.key :=
  failed_fetch_uses_latest_historical_as_stale (fun _ => 37) _ _ none
    (Or.inl rfl) ⟨_, List.mem_cons_self _ _, rfl⟩

/-- C2 (code bug, failing input): live fetch failed and the historical store
has no row for the location. `main` evaluates
`pd.to_datetime(live_df_raw['time'].iloc[0])` on an empty frame and raises
`IndexError` — the explicit unavailable state of line 184 is never reached. -/
theorem empty_historical_store_raises_index_error :
    run_assessment (fun _ => 0) [] "Gulf_of_Kutch" none =
      .error PyErr.indexError ∧
    run_assessment (fun _ => 0)
      [⟨"Andaman_Islands", ⟨⟨2020, 5, 1⟩, 11, 92, 29, 0, 0, 0, 0, 0⟩⟩]
      "Gulf_of_Kutch" (some []) = .error PyErr.indexError := by
  exact ⟨rfl, rfl⟩

/-- C4: running the what-if simulation with both overrides equal to the
baseline row's observed values yields exactly the prediction of the baseline
row — same model, same feature frame. -/
theorem zero_override_simulation_eq_baseline_prediction
    (model : List ℚ → ℚ) (row : RawRow) :
    sim_prediction model row row.sea_surface_temp_c
      row.degree_heating_week_c_weeks = predict_row model row := by
  have hrow : simulate_overrides row row.sea_surface_temp_c
      row.degree_heating_week_c_weeks = row := by
    cases row
    rfl
  rw [sim_prediction, hrow, predict_row]

/-- C5: the simulation replaces only `sea_surface_temp_c` and
`degree_heating_week_c_weeks`; every other model input — `hotspot_c`,
`sst_anomaly_c`, both alert-area columns, and the four calendar fields —
equals its baseline value in the processed simulated row, and the overridden
columns carry exactly the override values. -/
theorem simulation_frame_only_sst_dhw_changed
    (row : RawRow) (sim_sst sim_dhw : ℚ) :
    let simp_row := preprocess_live_data (simulate_overrides row sim_sst sim_dhw)
    let base_row := preprocess_live_data row
    simp_row.data.sea_surface_temp_c = sim_sst ∧
    simp_row.data.degree_heating_week_c_weeks = sim_dhw ∧
    simp_row.data.hotspot_c = base_row.data.hotspot_c ∧
    simp_row.data.sst_anomaly_c = base_row.data.sst_anomaly_c ∧
    simp_row.data.bleaching_alert_area = base_row.data.bleaching_alert_area ∧
    simp_row.data.bleaching_alert_area_7d_max =
      base_row.data.bleaching_alert_area_7d_max ∧
    simp_row.year = base_row.year ∧
    simp_row.month = base_row.month ∧
    simp_row.day_of_year = base_row.day_of_year ∧
    simp_row.week_of_year = base_row.week_of_year := by
  refine ⟨rfl, rfl, rfl, rfl, rfl, rfl, rfl, rfl, rfl, rfl⟩

/-- Rounding to two decimal places, `Series.round(2)`. The sources round via
numpy; the bounds we state are insensitive to the tie-breaking rule, so we
use Mathlib's `round` on `100 * x`. -/
def round2 (x : ℚ) : ℚ :=
  (round (100 * x) : ℚ) / 100

/-- The `np.select(conditions, choices, default=0)` of
`src/data_preparation_pipeline/data_preprocessor.py` lines 13–26, per row:
`dhw` is the row's `degree_heating_week_c_weeks` (`none` models NaN, for
which every comparison is False); `u0 … u3` are the row's entries of the four
`np.random.uniform` choice arrays; the first true condition wins, else 0. -/
def np_select_dhw (dhw : Option ℚ) (u0 u1 u2 u3 : ℚ) : ℚ :=
  match dhw with
  | none => 0
  | some d =>
    if d = 0 then u0
    else if 0 < d ∧ d < 4 then u1
    else if 4 ≤ d ∧ d < 8 then u2
    else if 8 ≤ d then u3
    else 0

/-- Per-row embedding of `apply_heuristic_labels`
(`src/data_preparation_pipeline/data_preprocessor.py` lines 6–30): select by
the DHW conditions, then `.round(2)`. -/
def apply_heuristic_labels_row (dhw : Option ℚ) (u0 u1 u2 u3 : ℚ) : ℚ :=
  round2 (np_select_dhw dhw u0 u1 u2 u3)

theorem round2_bounds (a b : ℤ) (x : ℚ) (h1 : (a : ℚ) ≤ x) (h2 : x < b) :
    (a : ℚ) ≤ round2 x ∧ round2 x ≤ b := by
  have h100 : (0 : ℚ) < 100 := by norm_num
  have hlow : a * 100 ≤ round (100 * x) := by
    rw [round_eq]
    refine Int.le_floor.2 ?_
    push_cast
    linarith
  have hhigh : round (100 * x) ≤ b * 100 := by
    rw [round_eq]
    have hlt : (100 * x + 1 / 2 : ℚ) < ((b * 100 + 1 : ℤ) : ℚ) := by
      push_cast
      linarith
    have := Int.floor_lt.2 hlt
    omega
  constructor
  · rw [round2, le_div_iff₀ h100]
    calc (a : ℚ) * 100 = ((a * 100 : ℤ) : ℚ) := by push_cast; ring
      _ ≤ (round (100 * x) : ℚ) := by exact_mod_cast hlow
  · rw [round2, div_le_iff₀ h100]
    calc (round (100 * x) : ℚ) ≤ ((b * 100 : ℤ) : ℚ) := by exact_mod_cast hhigh
      _ = (b : ℚ) * 100 := by push_cast; ring

theorem round2_zero : round2 0 = 0 := by
  simp [round2]

/-- C10: the heuristic label always lies in [0, 90]: rows with DHW = 0 get a
value in [1, 5], rows with 0 < DHW < 4 one in [10, 30], rows with
4 ≤ DHW < 8 one in [30, 60], rows with DHW ≥ 8 one in [60, 90], and rows
matching no condition (negative or missing DHW) get exactly 0. The `u`
hypotheses are the ranges `np.random.uniform(lo, hi)` draws from. -/
theorem heuristic_labels_bounds
    (dhw : Option ℚ) (u0 u1 u2 u3 : ℚ)
    (hu0 : 1 ≤ u0 ∧ u0 < 5) (hu1 : 10 ≤ u1 ∧ u1 < 30)
    (hu2 : 30 ≤ u2 ∧ u2 < 60) (hu3 : 60 ≤ u3 ∧ u3 < 90) :
    (0 ≤ apply_heuristic_labels_row dhw u0 u1 u2 u3 ∧
      apply_heuristic_labels_row dhw u0 u1 u2 u3 ≤ 90) ∧
    (dhw = some 0 →
      1 ≤ apply_heuristic_labels_row dhw u0 u1 u2 u3 ∧
      apply_heuristic_labels_row dhw u0 u1 u2 u3 ≤ 5) ∧
    (∀ d, dhw = some d → 0 < d → d < 4 →
      10 ≤ apply_heuristic_labels_row dhw u0 u1 u2 u3 ∧
      apply_heuristic_labels_row dhw u0 u1 u2 u3 ≤ 30) ∧
    (∀ d, dhw = some d → 4 ≤ d → d < 8 →
      30 ≤ apply_heuristic_labels_row dhw u0 u1 u2 u3 ∧
      apply_heuristic_labels_row dhw u0 u1 u2 u3 ≤ 60) ∧
    (∀ d, dhw = some d → 8 ≤ d →
      60 ≤ apply_heuristic_labels_row dhw u0 u1 u2 u3 ∧
      apply_heuristic_labels_row dhw u0 u1 u2 u3 ≤ 90) ∧
    (∀ d, dhw = some d → d < 0 →
      apply_heuristic_labels_row dhw u0 u1 u2 u3 = 0) ∧
    (dhw = none → apply_heuristic_labels_row dhw u0 u1 u2 u3 = 0) := by
  have hb0 := round2_bounds 1 5 u0 (by exact_mod_cast hu0.1) (by exact_mod_cast hu0.2)
  have hb1 := round2_bounds 10 30 u1 (by exact_mod_cast hu1.1) (by exact_mod_cast hu1.2)
  have hb2 := round2_bounds 30 60 u2 (by exact_mod_cast hu2.1) (by exact_mod_cast hu2.2)
  have hb3 := round2_bounds 60 90 u3 (by exact_mod_cast hu3.1) (by exact_mod_cast hu3.2)
  push_cast at hb0 hb1 hb2 hb3
  cases dhw with
  | none =>
    have hr : apply_heuristic_labels_row none u0 u1 u2 u3 = 0 :=
      congrArg round2 rfl |>.trans round2_zero
    rw [hr]
    refine ⟨⟨le_refl 0, by norm_num⟩, by simp, by simp, by simp, by simp,
      by simp, fun _ => rfl⟩
  | some d =>
    by_cases hc1 : d = 0
    · subst hc1
      have hsel : np_select_dhw (some 0) u0 u1 u2 u3 = u0 := by
        show (if (0 : ℚ) = 0 then u0 else if (0:ℚ) < 0 ∧ (0:ℚ) < 4 then u1
          else if 4 ≤ (0:ℚ) ∧ (0:ℚ) < 8 then u2 else if 8 ≤ (0:ℚ) then u3
          else 0) = u0
        rw [if_pos rfl]
      have hr : apply_heuristic_labels_row (some 0) u0 u1 u2 u3 = round2 u0 :=
        congrArg round2 hsel
      rw [hr]
      refine ⟨⟨by linarith, by linarith⟩, fun _ => ⟨hb0.1, hb0.2⟩,
        ?_, ?_, ?_, ?_, by simp⟩
      · rintro d' hd' hp _
        injection hd' with he
        subst he
        exact absurd hp (lt_irrefl 0)
      · rintro d' hd' hp _
        injection hd' with he
        subst he
        norm_num at hp
      · rintro d' hd' hp
        injection hd' with he
        subst he
        norm_num at hp
      · rintro d' hd' hp
        injection hd' with he
        subst he
        exact absurd hp (lt_irrefl 0)
    · by_cases hc2 : 0 < d ∧ d < 4
      · have hsel : np_select_dhw (some d) u0 u1 u2 u3 = u1 := by
          show (if d = 0 then u0 else if 0 < d ∧ d < 4 then u1
            else if 4 ≤ d ∧ d < 8 then u2 else if 8 ≤ d then u3 else 0) = u1
          rw [if_neg hc1, if_pos hc2]
        have hr : apply_heuristic_labels_row (some d) u0 u1 u2 u3 = round2 u1 :=
          congrArg round2 hsel
        rw [hr]
        refine ⟨⟨by linarith, by linarith⟩, ?_, fun _ _ _ _ => ⟨hb1.1, hb1.2⟩,
          ?_, ?_, ?_, by simp⟩
        · intro he
          injection he with he'
          exact absurd he' hc1
        · rintro d' hd' hp _
          injection hd' with he
          subst he
          exact absurd hp (by linarith [hc2.2])
        · rintro d' hd' hp
          injection hd' with he
          subst he
          exact absurd hp (by linarith [hc2.2])
        · rintro d' hd' hp
          injection hd' with he
          subst he
          exact absurd hp (by linarith [hc2.1])
      · by_cases hc3 : 4 ≤ d ∧ d < 8
        · have hsel : np_select_dhw (some d) u0 u1 u2 u3 = u2 := by
            show (if d = 0 then u0 else if 0 < d ∧ d < 4 then u1
              else if 4 ≤ d ∧ d < 8 then u2 else if 8 ≤ d then u3 else 0) = u2
            rw [if_neg hc1, if_neg hc2, if_pos hc3]
          have hr : apply_heuristic_labels_row (some d) u0 u1 u2 u3 = round2 u2 :=
            congrArg round2 hsel
          rw [hr]
          refine ⟨⟨by linarith, by linarith⟩, ?_, ?_,
            fun _ _ _ _ => ⟨hb2.1, hb2.2⟩, ?_, ?_, by simp⟩
          · intro he
            injection he with he'
            exact absurd he' hc1
          · rintro d' hd' _ hq
            injection hd' with he
            subst he
            exact absurd hq (by linarith [hc3.1])
          · rintro d' hd' hp
            injection hd' with he
            subst he
            exact absurd hp (by linarith [hc3.2])
          · rintro d' hd' hp
            injection hd' with he
            subst he
            exact absurd hp (by linarith [hc3.1])
        · by_cases hc4 : 8 ≤ d
          · have hsel : np_select_dhw (some d) u0 u1 u2 u3 = u3 := by
              show (if d = 0 then u0 else if 0 < d ∧ d < 4 then u1
                else if 4 ≤ d ∧ d < 8 then u2 else if 8 ≤ d then u3 else 0) = u3
              rw [if_neg hc1, if_neg hc2, if_neg hc3, if_pos hc4]
            have hr : apply_heuristic_labels_row (some d) u0 u1 u2 u3 = round2 u3 :=
              congrArg round2 hsel
            rw [hr]
            refine ⟨⟨by linarith, by linarith⟩, ?_, ?_, ?_,
              fun _ _ _ => ⟨hb3.1, hb3.2⟩, ?_, by simp⟩
            · intro he
              injection he with he'
              exact absurd he' hc1
            · rintro d' hd' _ hq
              injection hd' with he
              subst he
              exact absurd hq (by linarith)
            · rintro d' hd' _ hq
              injection hd' with he
              subst he
              exact absurd hq (by linarith)
            · rintro d' hd' hp
              injection hd' with he
              subst he
              exact absurd hp (by linarith)
          · have hsel : np_select_dhw (some d) u0 u1 u2 u3 = 0 := by
              show (if d = 0 then u0 else if 0 < d ∧ d < 4 then u1
                else if 4 ≤ d ∧ d < 8 then u2 else if 8 ≤ d then u3 else 0) = 0
              rw [if_neg hc1, if_neg hc2, if_neg hc3, if_neg hc4]
            have hr : apply_heuristic_labels_row (some d) u0 u1 u2 u3 = 0 :=
              (congrArg round2 hsel).trans round2_zero
            rw [hr]
            refine ⟨⟨le_refl 0, by norm_num⟩, ?_, ?_, ?_, ?_,
              fun _ _ _ => rfl, by simp⟩
            · intro he
              injection he with he'
              exact absurd he' hc1
            · rintro d' hd' hp hq
              injection hd' with he
              subst he
              exact absurd ⟨hp, hq⟩ hc2
            · rintro d' hd' hp hq
              injection hd' with he
              subst he
              exact absurd ⟨hp, hq⟩ hc3
            · rintro d' hd' hp
              injection hd' with he
              subst he
              exact absurd hp hc4

/-- Witness for C10: DHW = 2 with draws 2, 15, 40, 70 gives a label in
[10, 30]. -/
theorem heuristic_labels_bounds_witness :
    10 ≤ apply_heuristic_labels_row (some 2) 2 15 40 70 ∧
    apply_heuristic_labels_row (some 2) 2 15 40 70 ≤ 30 :=
  (heuristic_labels_bounds (some 2) 2 15 40 70 (by norm_num) (by norm_num)
    (by norm_num) (by norm_num)).2.2.1 2 rfl (by norm_num) (by norm_num)

end Coral
